import Mathlib

/-! Verification of the Navi command palette's intent classifier and
ranked-suggestion engine against its specification.

JavaScript strings are modelled as lists of code units (`List Nat`).  The
engine's numeric scores (IEEE doubles that here only ever hold small exact
fractions built from integer literals and divisions by positive integers)
are modelled as exact fractions with positive denominator (`PosFrac`).
JavaScript's `Array.prototype.sort` (a stable sort) is modelled by
`List.insertionSort`, which is likewise stable. -/

namespace Navi

/-- Code units of a string literal, used to transcribe keywords and inputs. -/
def strToUnits (s : String) : List Nat := s.toList.map Char.toNat

/-- JavaScript whitespace: the characters matched by `\s` and stripped by
`String.prototype.trim` (space, tab, LF, VT, FF, CR, NBSP, LS, PS, BOM). -/
def isWs (c : Nat) : Bool :=
  c == 32 || c == 9 || c == 10 || c == 11 || c == 12 || c == 13 ||
  c == 160 || c == 8232 || c == 8233 || c == 65279

/-- `String.prototype.toLowerCase`, restricted to ASCII (all keyword
comparisons in the classifier are over ASCII). -/
def toLowerU (c : Nat) : Nat := if 65 ≤ c && c ≤ 90 then c + 32 else c

/-- `s.toLowerCase()` on code units. -/
def lowerStr (s : List Nat) : List Nat := s.map toLowerU

/-- `String.prototype.trim`. -/
def jsTrim (s : List Nat) : List Nat :=
  ((s.dropWhile isWs).reverse.dropWhile isWs).reverse

/-- Greedy `\s*` stripping from the front, as in the `replace` calls. -/
def dropWs (s : List Nat) : List Nat := s.dropWhile isWs

/-- `s.startsWith(p)` on code units. -/
def strStarts : List Nat → List Nat → Bool
  | _, [] => true
  | [], _ :: _ => false
  | c :: s, p :: ps => c == p && strStarts s ps

/-- `s.includes(sub)` on code units. -/
def containsSub : List Nat → List Nat → Bool
  | [], sub => sub.isEmpty
  | c :: t, sub => strStarts (c :: t) sub || containsSub t sub

/-- Code-unit lexicographic order; the model of `a.localeCompare(b) ≤ 0` on
the lowercased names the comparators feed to it. -/
def lexLe : List Nat → List Nat → Bool
  | [], _ => true
  | _ :: _, [] => false
  | a :: l1, b :: l2 => if a < b then true else if b < a then false else lexLe l1 l2

def quitKw : List Nat := strToUnits (r"quit")
def quitSpKw : List Nat := strToUnits (r"quit ")
def swKw : List Nat := strToUnits (r"sw")
def swSpKw : List Nat := strToUnits (r"sw ")
def switchKw : List Nat := strToUnits (r"switch")
def switchSpKw : List Nat := strToUnits (r"switch ")
def focusKw : List Nat := strToUnits (r"focus")
def focusSpKw : List Nat := strToUnits (r"focus ")
def recentKw : List Nat := strToUnits (r"recent")
def recentSpKw : List Nat := strToUnits (r"recent ")
def recentFilesKw : List Nat := strToUnits (r"recent files")
def recentFoldersKw : List Nat := strToUnits (r"recent folders")
def httpKw : List Nat := strToUnits (r"http://")
def httpsKw : List Nat := strToUnits (r"https://")
def localhostKw : List Nat := strToUnits (r"localhost")
def wwwKw : List Nat := strToUnits (r"www.")
def schemeSepKw : List Nat := strToUnits (r"://")
def chatKw : List Nat := strToUnits (r"/chat")
def aiKw : List Nat := strToUnits (r"/ai")
def backslashStr : List Nat := [92]
def slashStr : List Nat := [47]
def openSpKw : List Nat := strToUnits (r"open ")
def launchSpKw : List Nat := strToUnits (r"launch ")
def startSpKw : List Nat := strToUnits (r"start ")
def searchWordKw : List Nat := strToUnits (r"search")
def findWordKw : List Nat := strToUnits (r"find")
def lookupWordKw : List Nat := strToUnits (r"lookup")
def googleWordKw : List Nat := strToUnits (r"google")
def bingWordKw : List Nat := strToUnits (r"bing")

/-- `\d` (ASCII digit). -/
def isDigit (c : Nat) : Bool := 48 ≤ c && c ≤ 57

/-- `[A-Za-z]`. -/
def isAsciiAlpha (c : Nat) : Bool := (65 ≤ c && c ≤ 90) || (97 ≤ c && c ≤ 122)

/-- The character class `[a-z0-9-]` under the `i` flag. -/
def isAlphaNumDash (c : Nat) : Bool := isAsciiAlpha c || isDigit c || c == 45

/-- A path separator, `[\\/]`. -/
def isSepChar (c : Nat) : Bool := c == 92 || c == 47

/-- `\w` (word character). -/
def isWordChar (c : Nat) : Bool := isAsciiAlpha c || isDigit c || c == 95

/-- The TLD alternation of the URL pattern, in source order. -/
def tldStrs : List String := [r"com", r"net", r"org", r"io", r"dev", r"co", r"edu", r"gov", r"mil", r"int", r"app", r"xyz", r"tech", r"online", r"site", r"website", r"store", r"shop", r"blog", r"info", r"biz", r"tv", r"me", r"us", r"uk", r"ca", r"au", r"de", r"fr", r"jp", r"cn", r"in", r"br", r"ru", r"kr", r"es", r"it", r"nl", r"se", r"no", r"dk", r"fi", r"pl", r"cz", r"hu", r"ro", r"gr", r"pt", r"ie", r"nz", r"za", r"mx", r"ar", r"cl", r"co", r"pe", r"ve", r"ec", r"uy", r"py", r"bo", r"cr", r"pa", r"gt", r"hn", r"ni", r"sv", r"bz", r"jm", r"tt", r"bb", r"gd", r"lc", r"vc", r"ag", r"dm", r"kn", r"bs", r"sr", r"gy", r"gf", r"fk", r"ai", r"vg", r"ky", r"bm", r"tc", r"ms", r"aw", r"cw", r"sx", r"bq", r"mf", r"bl", r"pm", r"wf", r"pf", r"nc", r"vu", r"fj", r"pg", r"sb", r"ki", r"tv", r"nr", r"pw", r"fm", r"mh", r"as", r"gu", r"mp", r"vi", r"pr", r"do", r"ht", r"cu", r"jm", r"bs", r"bb", r"gd", r"lc", r"vc", r"ag", r"dm", r"kn", r"ai", r"vg", r"ky", r"bm", r"tc", r"ms", r"aw", r"cw", r"sx", r"bq", r"mf", r"bl", r"pm", r"wf", r"pf", r"nc", r"vu", r"fj", r"pg", r"sb", r"ki", r"nr", r"pw", r"fm", r"mh", r"as", r"gu", r"mp", r"vi", r"pr", r"do", r"ht", r"cu"]

def tldList : List (List Nat) := tldStrs.map strToUnits

/-- The bare-domain alternative `[a-z0-9-]+\.(com|net|...)` of the URL
pattern (case-insensitive).  Since `.` is not in the leading character
class, the regex engine necessarily places the dot right after the maximal
run of class characters. -/
def bareDomainTest (s : List Nat) : Bool :=
  !(s.takeWhile isAlphaNumDash).isEmpty &&
    (match s.dropWhile isAlphaNumDash with
     | c :: after => c == 46 && tldList.any (fun t => strStarts (lowerStr after) t)
     | [] => false)

/-- `urlPattern.test(trimmed)`:
`/^(https?:\/\/|localhost|www\.|[a-z0-9-]+\.(TLDs))/i`. -/
def urlPatternTest (t : List Nat) : Bool :=
  strStarts (lowerStr t) httpKw || strStarts (lowerStr t) httpsKw ||
  strStarts (lowerStr t) localhostKw || strStarts (lowerStr t) wwwKw ||
  bareDomainTest t

/-- `pathPattern.test(trimmed)`: `/^([A-Za-z]:[\\\/]|\\\\|\.\.?[\\\/]|[\\\/])/`. -/
def pathPatternTest (s : List Nat) : Bool :=
  (match s with
   | a :: b :: c :: _ => isAsciiAlpha a && b == 58 && isSepChar c
   | _ => false) ||
  (match s with | a :: b :: _ => a == 92 && b == 92 | _ => false) ||
  (match s with | a :: b :: _ => a == 46 && isSepChar b | _ => false) ||
  (match s with
   | a :: b :: c :: _ => a == 46 && b == 46 && isSepChar c
   | _ => false) ||
  (match s with | a :: _ => isSepChar a | _ => false)

/-- A character of the class `[\d+\-*/().\s]`. -/
def isMathChar (c : Nat) : Bool :=
  isDigit c || c == 43 || c == 45 || c == 42 || c == 47 || c == 40 ||
  c == 41 || c == 46 || isWs c

/-- `mathPattern.test(trimmed)`: `/^[\d+\-*/().\s]+$/`. -/
def mathPatternTest (s : List Nat) : Bool := !s.isEmpty && s.all isMathChar

/-- `/[\+\-\*\/\(\)]/.test(trimmed)`. -/
def hasMathOps (s : List Nat) : Bool :=
  s.any (fun c => c == 43 || c == 45 || c == 42 || c == 47 || c == 40 || c == 41)

/-- `/[\d]/.test(trimmed)`. -/
def hasDigitTest (s : List Nat) : Bool := s.any isDigit

/-- A `\b` boundary relative to the preceding character (if any). -/
def wordBoundary (c : Option Nat) : Bool :=
  match c with
  | none => true
  | some c => !isWordChar c

/-- Whether the (lowercase) word `w` occurs at the head of `s` with a word
boundary after it. -/
def wordAtHead (w s : List Nat) : Bool :=
  strStarts (lowerStr s) w && wordBoundary (s.drop w.length).head?

/-- Scan of `s` for `w` with `\b` on both sides, tracking the previous
character. -/
def containsWordAux (w : List Nat) (prev : Option Nat) : List Nat → Bool
  | [] => false
  | c :: t => (wordBoundary prev && wordAtHead w (c :: t)) || containsWordAux w (some c) t

/-- `/\bw\b/i.test(s)` for a fixed lowercase word `w`. -/
def containsWord (s w : List Nat) : Bool := containsWordAux w none s

/-- `/\b(search|find|lookup|google|bing)\b/i.test(trimmed)`. -/
def hasSearchKeywords (t : List Nat) : Bool :=
  [searchWordKw, findWordKw, lookupWordKw, googleWordKw, bingWordKw].any
    (fun w => containsWord t w)

/-- `trimmed.replace(/^quit\s*/i, "").trim()`. -/
def quitValue (t : List Nat) : List Nat :=
  if strStarts (lowerStr t) quitKw then jsTrim (dropWs (t.drop 4)) else jsTrim t

/-- `trimmed.replace(/^(sw|switch|focus)\s*/i, "").trim()`.  The regex
alternation is ordered, so `sw` wins over `switch` on any `switch...`
input. -/
def switchValue (t : List Nat) : List Nat :=
  if strStarts (lowerStr t) swKw then jsTrim (dropWs (t.drop 2))
  else if strStarts (lowerStr t) switchKw then jsTrim (dropWs (t.drop 6))
  else if strStarts (lowerStr t) focusKw then jsTrim (dropWs (t.drop 5))
  else jsTrim t

/-- `trimmed.replace(/^recent\s*/i, "").trim()`. -/
def recentValue (t : List Nat) : List Nat :=
  if strStarts (lowerStr t) recentKw then jsTrim (dropWs (t.drop 6)) else jsTrim t

/-- `trimmed.replace(/^\/chat\s*/i, "").trim()`.  Note: only the `/chat`
prefix is in the regex; `/ai` inputs are returned whole. -/
def chatValue (t : List Nat) : List Nat :=
  if strStarts (lowerStr t) chatKw then jsTrim (dropWs (t.drop 5)) else jsTrim t

/-- Whether the head character exists and is `\s` (the mandatory `\s+` of
the open/launch/start regex). -/
def headIsWs (s : List Nat) : Bool :=
  match s.head? with
  | some c => isWs c
  | none => false

/-- `trimmed.replace(/^(open|launch|start)\s+/i, "").trim()`. -/
def appVerbValue (t : List Nat) : List Nat :=
  if strStarts (lowerStr t) (strToUnits (r"open")) && headIsWs (t.drop 4) then
    jsTrim (dropWs (t.drop 4))
  else if strStarts (lowerStr t) (strToUnits (r"launch")) && headIsWs (t.drop 6) then
    jsTrim (dropWs (t.drop 6))
  else if strStarts (lowerStr t) (strToUnits (r"start")) && headIsWs (t.drop 5) then
    jsTrim (dropWs (t.drop 5))
  else jsTrim t

inductive IntentType where
  | path | app | calculate | search | chat | quit | switch | recent | url | unknown
deriving DecidableEq

/-- The result shape of `detectIntent`. -/
structure Intent where
  type : IntentType
  value : List Nat
  confidence : ℚ
deriving DecidableEq

/-- The body of `detectIntent` after `trimmed = input.trim()`; `lower`
(`trimmed.toLowerCase()`) is inlined as `lowerStr trimmed`. -/
def detectIntentOfTrimmed (trimmed : List Nat) : Intent :=
  if lowerStr trimmed == quitKw || strStarts (lowerStr trimmed) quitSpKw then
    ⟨IntentType.quit, quitValue trimmed, 1⟩
  else if lowerStr trimmed == swKw || strStarts (lowerStr trimmed) swSpKw ||
      lowerStr trimmed == switchKw || strStarts (lowerStr trimmed) switchSpKw ||
      lowerStr trimmed == focusKw || strStarts (lowerStr trimmed) focusSpKw then
    ⟨IntentType.switch, switchValue trimmed, 1⟩
  else if lowerStr trimmed == recentKw || strStarts (lowerStr trimmed) recentSpKw ||
      lowerStr trimmed == recentFilesKw || lowerStr trimmed == recentFoldersKw then
    ⟨IntentType.recent, recentValue trimmed, 1⟩
  else if urlPatternTest trimmed || containsSub trimmed schemeSepKw ||
      strStarts trimmed localhostKw then
    ⟨IntentType.url, trimmed, 95/100⟩
  else if strStarts (lowerStr trimmed) chatKw || strStarts (lowerStr trimmed) aiKw then
    ⟨IntentType.chat, chatValue trimmed, 1⟩
  else if (pathPatternTest trimmed || containsSub trimmed backslashStr ||
        containsSub trimmed slashStr) &&
      (decide (2 < trimmed.length) &&
        (containsSub trimmed backslashStr || containsSub trimmed slashStr)) then
    ⟨IntentType.path, trimmed, 9/10⟩
  else if mathPatternTest trimmed || (hasMathOps trimmed && hasDigitTest trimmed) then
    ⟨IntentType.calculate, trimmed, 85/100⟩
  else if (strStarts (lowerStr trimmed) openSpKw ||
        strStarts (lowerStr trimmed) launchSpKw ||
        strStarts (lowerStr trimmed) startSpKw) &&
      decide (0 < (appVerbValue trimmed).length) then
    ⟨IntentType.app, appVerbValue trimmed, 9/10⟩
  else if decide (50 < trimmed.length) && hasSearchKeywords trimmed then
    ⟨IntentType.search, trimmed, 7/10⟩
  else if trimmed.length ≤ 50 then
    ⟨IntentType.app, trimmed, 6/10⟩
  else
    ⟨IntentType.app, trimmed, 4/10⟩

/-- `detectIntent` from App.tsx: classify a raw input string. -/
def detectIntent (input : List Nat) : Intent :=
  detectIntentOfTrimmed (jsTrim input)

/-- An exact fraction with positive denominator: the model of the
JavaScript numbers appearing in the scoring code. -/
structure PosFrac where
  num : Int
  den : Nat
  den_pos : 0 < den
deriving DecidableEq

def PosFrac.nat (n : Nat) : PosFrac := ⟨(n : Int), 1, Nat.one_pos⟩

def PosFrac.add (a b : PosFrac) : PosFrac :=
  ⟨a.num * b.den + b.num * a.den, a.den * b.den, Nat.mul_pos a.den_pos b.den_pos⟩

def PosFrac.mul (a b : PosFrac) : PosFrac :=
  ⟨a.num * b.num, a.den * b.den, Nat.mul_pos a.den_pos b.den_pos⟩

/-- `x / Math.max(y, 1)` as an exact fraction.  (All divisions in the
scoring code are of this shape, or have a divisor that is positive at
every reachable call.) -/
def PosFrac.ratio (x y : Nat) : PosFrac := ⟨(x : Int), max y 1, by omega⟩

def PosFrac.le (a b : PosFrac) : Prop := a.num * b.den ≤ b.num * a.den

def PosFrac.lt (a b : PosFrac) : Prop := a.num * b.den < b.num * a.den

instance (a b : PosFrac) : Decidable (PosFrac.le a b) :=
  inferInstanceAs (Decidable (_ ≤ _))

instance (a b : PosFrac) : Decidable (PosFrac.lt a b) :=
  inferInstanceAs (Decidable (_ < _))

/-- `split(/\s+/)` followed by the `.filter((w) => w.length > 0)` the
source applies to both query and name. -/
def splitWs (s : List Nat) : List (List Nat) :=
  (List.splitOnP isWs s).filter (fun w => !w.isEmpty)

/-- The inner `for (const nWord of nameWords) ... break` of the word-match
tier: the first name word matching `qWord`, with its score. -/
def wordMatchScore (nameWords : List (List Nat)) (qWord : List Nat) : Option PosFrac :=
  match nameWords with
  | [] => none
  | nWord :: rest =>
    if strStarts nWord qWord then
      some (PosFrac.mul (PosFrac.nat 2000) (PosFrac.ratio qWord.length nWord.length))
    else if containsSub nWord qWord then
      some (PosFrac.mul (PosFrac.nat 1000) (PosFrac.ratio qWord.length nWord.length))
    else if strStarts qWord nWord && decide (3 ≤ nWord.length) then
      some (PosFrac.mul (PosFrac.nat 800) (PosFrac.ratio nWord.length qWord.length))
    else wordMatchScore rest qWord

/-- One iteration of the outer word loop: `(wordMatches, wordScore)`. -/
def wordAccum (nameWords : List (List Nat)) (acc : Nat × PosFrac) (qWord : List Nat) :
    Nat × PosFrac :=
  match wordMatchScore nameWords qWord with
  | some sc => (acc.1 + 1, PosFrac.add acc.2 sc)
  | none => acc

/-- The in-order character-subsequence count of the fallback tier. -/
def seqCount : List Nat → List Nat → Nat
  | [], _ => 0
  | _ :: _, [] => 0
  | n :: ns, q :: qs => if n == q then 1 + seqCount ns qs else seqCount ns (q :: qs)

/-- Word-match and character-sequence tiers of the score (reached only
when the name neither equals, starts with, nor contains the query). -/
def wordAndSeqScore (queryLower nameLower : List Nat) : PosFrac :=
  let queryWords := splitWs queryLower
  let wm := queryWords.foldl (wordAccum (splitWs nameLower)) (0, PosFrac.nat 0)
  let wordTotal : PosFrac :=
    if 0 < wm.1 then
      PosFrac.add
        (PosFrac.add wm.2
          (if wm.1 == queryWords.length then PosFrac.nat 1000 else PosFrac.nat 0))
        (PosFrac.mul (PosFrac.ratio wm.1 queryWords.length) (PosFrac.nat 500))
    else PosFrac.nat 0
  if wordTotal.num == 0 || decide (PosFrac.lt wordTotal (PosFrac.nat 100)) then
    let sm := seqCount nameLower queryLower
    if 0 < sm then PosFrac.mul (PosFrac.ratio sm queryLower.length) (PosFrac.nat 300)
    else wordTotal
  else wordTotal

/-- The per-app score assigned inside `searchApps` (query already
lowercased and trimmed). -/
def appScore (queryLower name : List Nat) : PosFrac :=
  if lowerStr name == queryLower then PosFrac.nat 10000
  else if strStarts (lowerStr name) queryLower then
    PosFrac.add (PosFrac.nat 5000)
      (PosFrac.mul (PosFrac.ratio queryLower.length (lowerStr name).length)
        (PosFrac.nat 2000))
  else if containsSub (lowerStr name) queryLower then
    PosFrac.add (PosFrac.nat 3000)
      (PosFrac.mul (PosFrac.ratio queryLower.length (lowerStr name).length)
        (PosFrac.nat 1000))
  else
    wordAndSeqScore queryLower (lowerStr name)

/-- Descending-score order: the model of the comparator
`(a, b) => b.score - a.score`. -/
def scoreGe (p q : List Nat × PosFrac) : Prop := PosFrac.le q.2 p.2

instance : DecidableRel scoreGe := fun p q => by unfold scoreGe; infer_instance

/-- `searchApps` from the backend: score all apps (keeping name and score),
drop zero scores, sort by descending score, take the top `limit`. -/
def searchApps (apps : List (List Nat)) (query : List Nat) (limit : Nat) :
    List (List Nat × PosFrac) :=
  if (jsTrim query).isEmpty then []
  else
    (List.insertionSort scoreGe
        ((apps.map (fun a => (a, appScore (jsTrim (lowerStr query)) a))).filter
          (fun p => decide (PosFrac.lt (PosFrac.nat 0) p.2)))).take limit

/-- The running-app comparator of `filterAndDisplayApps` (and of the
identical quit-suggestions comparator), as the relation
"`comparator(a,b) ≤ 0`". -/
def runningAppCmpLe (searchTerm a b : List Nat) : Bool :=
  if lowerStr a == searchTerm then true
  else if lowerStr b == searchTerm then false
  else if strStarts (lowerStr a) searchTerm then true
  else if strStarts (lowerStr b) searchTerm then false
  else lexLe (lowerStr a) (lowerStr b)

def runningAppRel (searchTerm : List Nat) (a b : List Nat) : Prop :=
  runningAppCmpLe searchTerm a b = true

instance (t : List Nat) : DecidableRel (runningAppRel t) := fun a b => by
  unfold runningAppRel; infer_instance

/-- The no-search-term comparator: case-insensitive alphabetical. -/
def alphaRel (a b : List Nat) : Prop := lexLe (lowerStr a) (lowerStr b) = true

instance : DecidableRel alphaRel := fun a b => by unfold alphaRel; infer_instance

/-- `filterAndDisplayApps` (App.tsx), on process names: filter by
case-insensitive substring when a search term is present, then sort with
the exact/starts-with/alphabetical comparator; with no term, include all
and sort alphabetically. -/
def filterAndDisplayApps (apps : List (List Nat)) (searchTerm : List Nat) :
    List (List Nat) :=
  if searchTerm.isEmpty then List.insertionSort alphaRel apps
  else
    List.insertionSort (runningAppRel searchTerm)
      (apps.filter (fun a => containsSub (lowerStr a) searchTerm))

/-- The match tier of a name against a term: 0 exact, 1 starts-with,
2 other.  (Used to state what the comparator's order means.) -/
def nameRank (searchTerm n : List Nat) : Nat :=
  if lowerStr n == searchTerm then 0
  else if strStarts (lowerStr n) searchTerm then 1
  else 2

/-- The payload of a pending confirmation (the collaborator-owned workflow
fields are abstracted to the ones that identify the deferred step). -/
structure Confirmation where
  ctype : List Nat
  originalValue : List Nat
  stepIndex : Nat
deriving DecidableEq

/-- Server-side state relevant to `/confirm`: the `pendingConfirmations`
map, as an association list keyed by confirmation id. -/
structure ServerState where
  pendingConfirmations : List (List Nat × Confirmation)
deriving DecidableEq

/-- An external side-effecting operation performed by the confirm handler:
re-executing the deferred workflow step. -/
inductive ConfirmEffect where
  | resumeStep (c : Confirmation) (path : Option (List Nat))
deriving DecidableEq

structure ConfirmResponse where
  status : Nat
  success : Bool
  cancelled : Bool
  error : Option (List Nat)
deriving DecidableEq

def errRequired : List Nat := strToUnits (r"confirmationId and confirmed are required")
def errNotFound : List Nat := strToUnits (r"Confirmation not found or expired")

/-- `pendingConfirmations.get(id)`. -/
def pendingLookup (m : List (List Nat × Confirmation)) (k : List Nat) :
    Option Confirmation :=
  (m.find? (fun p => p.1 == k)).map (fun p => p.2)

/-- `pendingConfirmations.delete(id)`. -/
def pendingDelete (m : List (List Nat × Confirmation)) (k : List Nat) :
    List (List Nat × Confirmation) :=
  m.filter (fun p => !(p.1 == k))

/-- The `POST /confirm` handler: validate the request, look up the pending
confirmation, delete it, and either cancel (no effects) or resume the
deferred step. -/
def confirmHandler (st : ServerState) (confirmationId : Option (List Nat))
    (confirmed : Option Bool) (path : Option (List Nat)) :
    ServerState × ConfirmResponse × List ConfirmEffect :=
  match confirmationId, confirmed with
  | none, _ => (st, ⟨400, false, false, some errRequired⟩, [])
  | some _, none => (st, ⟨400, false, false, some errRequired⟩, [])
  | some cid, some conf =>
    if cid.isEmpty then (st, ⟨400, false, false, some errRequired⟩, [])
    else
      match pendingLookup st.pendingConfirmations cid with
      | none => (st, ⟨404, false, false, some errNotFound⟩, [])
      | some c =>
        let st1 : ServerState := ⟨pendingDelete st.pendingConfirmations cid⟩
        if conf then (st1, ⟨200, true, false, none⟩, [ConfirmEffect.resumeStep c path])
        else (st1, ⟨200, false, true, none⟩, [])

/-- A visible suggestion entry. -/
structure Suggestion where
  name : List Nat
  path : List Nat
deriving DecidableEq

/-- The presenter state touched by keyboard navigation and list updates. -/
structure PresenterState where
  suggestions : List Suggestion
  selectedSuggestionIndex : Nat
  showSuggestions : Bool
deriving DecidableEq

/-- The ArrowDown branch of `handleKeyDown` (scroll management elided):
guarded by a visible non-empty list, clamp the cursor at the last index. -/
def arrowDown (st : PresenterState) : PresenterState :=
  if st.showSuggestions && decide (0 < st.suggestions.length) then
    { st with selectedSuggestionIndex :=
        if st.selectedSuggestionIndex < st.suggestions.length - 1 then
          st.selectedSuggestionIndex + 1
        else st.selectedSuggestionIndex }
  else st

/-- The ArrowUp branch of `handleKeyDown`: clamp the cursor at 0. -/
def arrowUp (st : PresenterState) : PresenterState :=
  if st.showSuggestions && decide (0 < st.suggestions.length) then
    { st with selectedSuggestionIndex :=
        if 0 < st.selectedSuggestionIndex then st.selectedSuggestionIndex - 1 else 0 }
  else st

/-- The common update at every site that replaces the suggestion list: a
non-empty result is shown with the cursor reset to 0, an empty result
hides the list. -/
def setSuggestionList (st : PresenterState) (l : List Suggestion) : PresenterState :=
  if 0 < l.length then ⟨l, 0, true⟩
  else ⟨[], st.selectedSuggestionIndex, false⟩

/-- The spec's claimed Quit trigger `^quit(\s.*)?$` (case-insensitive),
transcribed from the claim's own wording for refutation. -/
def specQuitRegexMatch (t : List Nat) : Bool :=
  lowerStr t == quitKw ||
    (strStarts (lowerStr t) quitKw &&
      (match (lowerStr t).drop 4 with
       | c :: _ => isWs c
       | [] => false))

def arithInput : List Nat := strToUnits (r"2+2*3")
def slashArithInput : List Nat := strToUnits (r"6/2")
def drivePathInput : List Nat := strToUnits (r"C:\Users\test\file.txt")
def relPathInput : List Nat := strToUnits (r"a/b")
def chatInput : List Nat := strToUnits (r"/chat open my project")
def chatInputValue : List Nat := strToUnits (r"open my project")
def aiInput : List Nat := strToUnits (r"/ai hi")
def quitUrlInput : List Nat := strToUnits (r"quit https://x.com")
def quitUrlValue : List Nat := strToUnits (r"https://x.com")

/-- The input "quit", TAB, "x": `q u i t \t x`. -/
def quitTabInput : List Nat := [113, 117, 105, 116, 9, 120]

def demoSuggestionA : Suggestion := ⟨strToUnits (r"Alpha"), strToUnits (r"alpha")⟩
def demoSuggestionB : Suggestion := ⟨strToUnits (r"Beta"), strToUnits (r"beta")⟩
def demoPresenter : PresenterState := ⟨[demoSuggestionA, demoSuggestionB], 1, true⟩
def demoConfirmation : Confirmation :=
  ⟨strToUnits (r"open_terminal"), strToUnits (r"C:\proj"), 0⟩
def demoCid : List Nat := strToUnits (r"confirm_1")
def demoServer : ServerState := ⟨[(demoCid, demoConfirmation)]⟩
def demoProcs : List (List Nat) :=
  [strToUnits (r"Beta"), strToUnits (r"alpha"), strToUnits (r"AL"), strToUnits (r"xal")]
def demoTerm : List Nat := strToUnits (r"al")
def demoApps : List (List Nat) :=
  [strToUnits (r"xab"), strToUnits (r"abc"), strToUnits (r"ab")]
def demoQuery : List Nat := strToUnits (r"ab")

theorem dropWhile_dropWhile {α : Type} (p : α → Bool) (l : List α) :
    (l.dropWhile p).dropWhile p = l.dropWhile p := by
  induction l with
  | nil => rfl
  | cons a t ih =>
    by_cases h : p a = true
    · simp only [List.dropWhile_cons, h, if_true]
      exact ih
    · rw [Bool.not_eq_true] at h
      simp only [List.dropWhile_cons, h, Bool.false_eq_true, if_false]

theorem dropWhile_fix_head {α : Type} {p : α → Bool} {a : α} {t : List α}
    (h : (a :: t).dropWhile p = a :: t) : p a = false := by
  by_contra hpa
  rw [Bool.not_eq_false] at hpa
  rw [List.dropWhile_cons, if_pos hpa] at h
  have hle := ((List.dropWhile_suffix (l := t) p).sublist).length_le
  have := congrArg List.length h
  simp at this
  omega

theorem dropWhile_append_single {α : Type} {p : α → Bool} {a : α} (l : List α)
    (h : p a = false) : (l ++ [a]).dropWhile p = l.dropWhile p ++ [a] := by
  induction l with
  | nil => simp [List.dropWhile_cons, h]
  | cons b t ih =>
    by_cases hb : p b = true
    · simpa [List.dropWhile_cons, hb] using ih
    · rw [Bool.not_eq_true] at hb
      simp [List.dropWhile_cons, hb]

theorem jsTrim_idem (l : List Nat) : jsTrim (jsTrim l) = jsTrim l := by
  unfold jsTrim
  have hfront : (l.dropWhile isWs).dropWhile isWs = l.dropWhile isWs :=
    dropWhile_dropWhile isWs l
  cases hy : l.dropWhile isWs with
  | nil => simp
  | cons a t =>
    have ha : isWs a = false := dropWhile_fix_head (hy ▸ hfront)
    have hz : ((a :: t).reverse.dropWhile isWs).reverse
        = a :: (t.reverse.dropWhile isWs).reverse := by
      rw [List.reverse_cons, dropWhile_append_single _ ha]
      simp
    have hW : ((a :: t).reverse.dropWhile isWs).reverse.dropWhile isWs
        = ((a :: t).reverse.dropWhile isWs).reverse := by
      rw [hz]
      simp only [List.dropWhile_cons, ha, Bool.false_eq_true, if_false]
    rw [hW, List.reverse_reverse, dropWhile_dropWhile]

/-- C10: `classify` is insensitive to surrounding whitespace: for every
input `s`, classifying `s` and classifying its trimmed form return the
same intent, value and confidence, because the input is trimmed before any
rule is evaluated. -/
theorem detectIntent_trim_invariant (s : List Nat) :
    detectIntent (jsTrim s) = detectIntent s := by
  unfold detectIntent
  rw [jsTrim_idem]

/-- C9: `classify` never returns the Unknown variant: the two trailing
App-default branches make `detectIntent` total over the other intent
variants. -/
theorem detectIntent_never_unknown (s : List Nat) :
    (detectIntent s).type ≠ IntentType.unknown := by
  unfold detectIntent detectIntentOfTrimmed
  repeat' split
  all_goals simp

theorem strStarts_cons {s : List Nat} {k : Nat} {ks : List Nat}
    (h : strStarts s (k :: ks) = true) : ∃ r, s = k :: r ∧ strStarts r ks = true := by
  cases s with
  | nil => simp [strStarts] at h
  | cons c t =>
    unfold strStarts at h
    rw [Bool.and_eq_true] at h
    obtain ⟨h1, h2⟩ := h
    exact ⟨t, by rw [beq_iff_eq.mp h1], h2⟩

theorem strStarts_mem {s sub : List Nat} (h : strStarts s sub = true) :
    ∀ x ∈ sub, x ∈ s := by
  induction sub generalizing s with
  | nil => intro x hx; simp at hx
  | cons k ks ih =>
    obtain ⟨r, rfl, hr⟩ := strStarts_cons h
    intro x hx
    rcases List.mem_cons.mp hx with rfl | hx
    · exact List.mem_cons_self x r
    · exact List.mem_cons_of_mem _ (ih hr x hx)

theorem strStarts_length {s sub : List Nat} (h : strStarts s sub = true) :
    sub.length ≤ s.length := by
  induction sub generalizing s with
  | nil => simp
  | cons k ks ih =>
    obtain ⟨r, rfl, hr⟩ := strStarts_cons h
    simpa using ih hr

theorem strStarts_eq_of_length {s sub : List Nat} (h : strStarts s sub = true)
    (hl : sub.length = s.length) : s = sub := by
  induction sub generalizing s with
  | nil => cases s with
    | nil => rfl
    | cons c t => simp at hl
  | cons k ks ih =>
    obtain ⟨r, rfl, hr⟩ := strStarts_cons h
    simp only [List.length_cons, Nat.add_right_cancel_iff] at hl
    rw [ih hr hl]

theorem strStarts_append_left {s p q : List Nat} (h : strStarts s (p ++ q) = true) :
    strStarts s p = true := by
  induction p generalizing s with
  | nil => cases s <;> rfl
  | cons k ks ih =>
    rw [List.cons_append] at h
    obtain ⟨r, rfl, hr⟩ := strStarts_cons h
    unfold strStarts
    rw [Bool.and_eq_true]
    exact ⟨beq_iff_eq.mpr rfl, ih hr⟩

theorem containsSub_mem {s sub : List Nat} (h : containsSub s sub = true) :
    ∀ x ∈ sub, x ∈ s := by
  induction s with
  | nil =>
    intro x hx
    unfold containsSub at h
    rw [List.isEmpty_iff] at h
    subst h
    simp at hx
  | cons c t ih =>
    unfold containsSub at h
    rw [Bool.or_eq_true] at h
    rcases h with h | h
    · exact strStarts_mem h
    · exact fun x hx => List.mem_cons_of_mem _ (ih h x hx)

theorem containsSub_length {s sub : List Nat} (h : containsSub s sub = true) :
    sub.length ≤ s.length := by
  induction s with
  | nil =>
    unfold containsSub at h
    rw [List.isEmpty_iff] at h
    simp [h]
  | cons c t ih =>
    unfold containsSub at h
    rw [Bool.or_eq_true] at h
    rcases h with h | h
    · exact strStarts_length h
    · exact Nat.le_trans (ih h) (by simp)

theorem containsSub_lt_of_not_starts {s sub : List Nat} (h : containsSub s sub = true)
    (hns : strStarts s sub = false) : sub.length < s.length := by
  cases s with
  | nil =>
    unfold containsSub at h
    rw [List.isEmpty_iff] at h
    subst h
    simp [strStarts] at hns
  | cons c t =>
    unfold containsSub at h
    rw [Bool.or_eq_true] at h
    rcases h with h | h
    · rw [h] at hns; cases hns
    · exact Nat.lt_of_le_of_lt (containsSub_length h) (by simp)

theorem strStarts_false_of_bad_mem {t w : List Nat}
    (hall : ∀ c ∈ t, isMathChar c = true)
    (hk : w.any (fun k => !isMathChar k) = true) : strStarts t w = false := by
  by_contra h
  rw [Bool.not_eq_false] at h
  obtain ⟨x, hxkw, hx⟩ := List.any_eq_true.mp hk
  rw [Bool.not_eq_true'] at hx
  rw [hall x (strStarts_mem h x hxkw)] at hx
  cases hx

theorem beq_false_of_bad_mem {t w : List Nat}
    (hall : ∀ c ∈ t, isMathChar c = true)
    (hk : w.any (fun k => !isMathChar k) = true) : (t == w) = false := by
  by_contra h
  rw [Bool.not_eq_false, beq_iff_eq] at h
  subst h
  obtain ⟨x, hxkw, hx⟩ := List.any_eq_true.mp hk
  rw [Bool.not_eq_true'] at hx
  rw [hall x hxkw] at hx
  cases hx

theorem containsSub_false_of_bad_mem {t w : List Nat}
    (hall : ∀ c ∈ t, isMathChar c = true)
    (hk : w.any (fun k => !isMathChar k) = true) : containsSub t w = false := by
  by_contra h
  rw [Bool.not_eq_false] at h
  obtain ⟨x, hxkw, hx⟩ := List.any_eq_true.mp hk
  rw [Bool.not_eq_true'] at hx
  rw [hall x (containsSub_mem h x hxkw)] at hx
  cases hx

theorem toLowerU_of_isMathChar {c : Nat} (h : isMathChar c = true) : toLowerU c = c := by
  unfold isMathChar isDigit isWs at h
  simp only [Bool.or_eq_true, Bool.and_eq_true, decide_eq_true_eq, beq_iff_eq] at h
  unfold toLowerU
  split
  · next hc =>
    simp only [Bool.and_eq_true, decide_eq_true_eq] at hc
    omega
  · rfl

theorem lowerStr_of_math {t : List Nat} (h : mathPatternTest t = true) :
    lowerStr t = t := by
  unfold mathPatternTest at h
  rw [Bool.and_eq_true, List.all_eq_true] at h
  unfold lowerStr
  calc t.map toLowerU = t.map id :=
        List.map_congr_left (fun a ha => toLowerU_of_isMathChar (h.2 a ha))
    _ = t := List.map_id t

theorem mathPattern_all {t : List Nat} (h : mathPatternTest t = true) :
    ∀ c ∈ t, isMathChar c = true := by
  unfold mathPatternTest at h
  rw [Bool.and_eq_true, List.all_eq_true] at h
  exact h.2

theorem lowerStr_of_all_math {t : List Nat} (h : ∀ c ∈ t, isMathChar c = true) :
    lowerStr t = t := by
  unfold lowerStr
  calc t.map toLowerU = t.map id :=
        List.map_congr_left (fun a ha => toLowerU_of_isMathChar (h a ha))
    _ = t := List.map_id t

theorem urlPatternTest_false_of_math {t : List Nat}
    (hall : ∀ c ∈ t, isMathChar c = true) (hlow : lowerStr t = t) :
    urlPatternTest t = false := by
  unfold urlPatternTest
  rw [hlow]
  rw [strStarts_false_of_bad_mem (w := httpKw) hall (by decide),
      strStarts_false_of_bad_mem (w := httpsKw) hall (by decide),
      strStarts_false_of_bad_mem (w := localhostKw) hall (by decide),
      strStarts_false_of_bad_mem (w := wwwKw) hall (by decide)]
  simp only [Bool.false_or]
  unfold bareDomainTest
  cases hrest : t.dropWhile isAlphaNumDash with
  | nil => simp
  | cons c after =>
    have hsub : ∀ x ∈ after, isMathChar x = true := by
      intro x hx
      refine hall x ?_
      have hmem : x ∈ t.dropWhile isAlphaNumDash := by
        rw [hrest]; exact List.mem_cons_of_mem _ hx
      exact (List.dropWhile_suffix isAlphaNumDash).sublist.subset hmem
    have master : tldList.all (fun w => w.any (fun k => !isMathChar k)) = true := by
      decide
    have hany : tldList.any (fun w => strStarts (lowerStr after) w) = false := by
      rw [lowerStr_of_all_math hsub]
      rw [List.any_eq_false]
      intro w hw
      simp [strStarts_false_of_bad_mem hsub (List.all_eq_true.mp master w hw)]
    simp [hany]

/-- C1 (amended): a pure-arithmetic input (nonempty trimmed text drawn
from digits, `+ - * / ( ) .` and whitespace) classifies as Calculate with
confidence 0.85 and value equal to the trimmed input, provided it does not
simultaneously contain a `/` and have trimmed length above 2 — in that
case the earlier Path rule fires instead (its `includes("/")` shortcut
needs no path-like prefix). -/
theorem detectIntent_calculate_of_pure_arith (s : List Nat)
    (hmath : mathPatternTest (jsTrim s) = true)
    (hsl : (jsTrim s).length ≤ 2 ∨ containsSub (jsTrim s) slashStr = false) :
    detectIntent s = ⟨IntentType.calculate, jsTrim s, 85/100⟩ := by
  have hall := mathPattern_all hmath
  have hlow := lowerStr_of_math hmath
  have hc1 : (lowerStr (jsTrim s) == quitKw ||
      strStarts (lowerStr (jsTrim s)) quitSpKw) = false := by
    rw [hlow, beq_false_of_bad_mem (w := quitKw) hall (by decide),
        strStarts_false_of_bad_mem (w := quitSpKw) hall (by decide)]
    decide
  have hc2 : (lowerStr (jsTrim s) == swKw || strStarts (lowerStr (jsTrim s)) swSpKw ||
      lowerStr (jsTrim s) == switchKw || strStarts (lowerStr (jsTrim s)) switchSpKw ||
      lowerStr (jsTrim s) == focusKw || strStarts (lowerStr (jsTrim s)) focusSpKw) = false := by
    rw [hlow, beq_false_of_bad_mem (w := swKw) hall (by decide),
        strStarts_false_of_bad_mem (w := swSpKw) hall (by decide),
        beq_false_of_bad_mem (w := switchKw) hall (by decide),
        strStarts_false_of_bad_mem (w := switchSpKw) hall (by decide),
        beq_false_of_bad_mem (w := focusKw) hall (by decide),
        strStarts_false_of_bad_mem (w := focusSpKw) hall (by decide)]
    decide
  have hc3 : (lowerStr (jsTrim s) == recentKw ||
      strStarts (lowerStr (jsTrim s)) recentSpKw ||
      lowerStr (jsTrim s) == recentFilesKw ||
      lowerStr (jsTrim s) == recentFoldersKw) = false := by
    rw [hlow, beq_false_of_bad_mem (w := recentKw) hall (by decide),
        strStarts_false_of_bad_mem (w := recentSpKw) hall (by decide),
        beq_false_of_bad_mem (w := recentFilesKw) hall (by decide),
        beq_false_of_bad_mem (w := recentFoldersKw) hall (by decide)]
    decide
  have hc4 : (urlPatternTest (jsTrim s) || containsSub (jsTrim s) schemeSepKw ||
      strStarts (jsTrim s) localhostKw) = false := by
    rw [urlPatternTest_false_of_math hall hlow,
        containsSub_false_of_bad_mem (w := schemeSepKw) hall (by decide),
        strStarts_false_of_bad_mem (w := localhostKw) hall (by decide)]
    decide
  have hc5 : (strStarts (lowerStr (jsTrim s)) chatKw ||
      strStarts (lowerStr (jsTrim s)) aiKw) = false := by
    rw [hlow, strStarts_false_of_bad_mem (w := chatKw) hall (by decide),
        strStarts_false_of_bad_mem (w := aiKw) hall (by decide)]
    decide
  have hc6 : ((pathPatternTest (jsTrim s) || containsSub (jsTrim s) backslashStr ||
      containsSub (jsTrim s) slashStr) &&
      (decide (2 < (jsTrim s).length) &&
        (containsSub (jsTrim s) backslashStr || containsSub (jsTrim s) slashStr))) = false := by
    have hbs : containsSub (jsTrim s) backslashStr = false :=
      containsSub_false_of_bad_mem hall (by decide)
    rcases hsl with hlen | hslf
    · rw [decide_eq_false (by omega)]
      simp
    · rw [hbs, hslf]
      simp
  have hmath' : (mathPatternTest (jsTrim s) ||
      (hasMathOps (jsTrim s) && hasDigitTest (jsTrim s))) = true := by
    rw [hmath]; rfl
  unfold detectIntent detectIntentOfTrimmed
  rw [if_neg (by simp [hc1]), if_neg (by simp [hc2]), if_neg (by simp [hc3]),
      if_neg (by simp [hc4]), if_neg (by simp [hc5]), if_neg (by simp [hc6]),
      if_pos hmath']

/-- C1 witness: "2+2*3" is pure arithmetic without a slash and classifies
as Calculate with confidence 0.85 and the trimmed input as value. -/
theorem detectIntent_calculate_of_pure_arith_witness :
    mathPatternTest (jsTrim arithInput) = true ∧
    detectIntent arithInput = ⟨IntentType.calculate, arithInput, 85/100⟩ := by
  refine ⟨by decide, ?_⟩
  have h := detectIntent_calculate_of_pure_arith arithInput (by decide) (Or.inr (by decide))
  rw [h, show jsTrim arithInput = arithInput from by decide]

/-- C1 counterexample: "6/2" is pure arithmetic, yet the code classifies
it as Path (confidence 0.9), not Calculate, because the Path rule's
`includes("/")` shortcut fires on any input of length above 2 containing a
slash. -/
theorem detectIntent_slash_arith_counterexample :
    mathPatternTest (jsTrim slashArithInput) = true ∧
    (detectIntent slashArithInput).type = IntentType.path ∧
    (detectIntent slashArithInput).type ≠ IntentType.calculate := by
  exact ⟨by decide, by decide, by decide⟩

/-- C2 (amended): when none of the Quit/Switch/Recent/Url/Chat rules
match, the input classifies as Path (confidence 0.9, value unchanged)
exactly when its trimmed form has length above 2 and contains a path
separator.  The leading drive-letter/UNC/relative-dot/separator prefix the
claim requires is not necessary: the rule's `includes` shortcut makes the
prefix test redundant. -/
theorem detectIntent_path_characterization (s : List Nat)
    (h1 : (lowerStr (jsTrim s) == quitKw ||
        strStarts (lowerStr (jsTrim s)) quitSpKw) = false)
    (h2 : (lowerStr (jsTrim s) == swKw || strStarts (lowerStr (jsTrim s)) swSpKw ||
        lowerStr (jsTrim s) == switchKw || strStarts (lowerStr (jsTrim s)) switchSpKw ||
        lowerStr (jsTrim s) == focusKw || strStarts (lowerStr (jsTrim s)) focusSpKw) = false)
    (h3 : (lowerStr (jsTrim s) == recentKw || strStarts (lowerStr (jsTrim s)) recentSpKw ||
        lowerStr (jsTrim s) == recentFilesKw || lowerStr (jsTrim s) == recentFoldersKw) = false)
    (h4 : (urlPatternTest (jsTrim s) || containsSub (jsTrim s) schemeSepKw ||
        strStarts (jsTrim s) localhostKw) = false)
    (h5 : (strStarts (lowerStr (jsTrim s)) chatKw ||
        strStarts (lowerStr (jsTrim s)) aiKw) = false) :
    ((detectIntent s).type = IntentType.path ↔
      (2 < (jsTrim s).length ∧
        (containsSub (jsTrim s) backslashStr || containsSub (jsTrim s) slashStr) = true)) ∧
    ((detectIntent s).type = IntentType.path →
      detectIntent s = ⟨IntentType.path, jsTrim s, 9/10⟩) := by
  unfold detectIntent detectIntentOfTrimmed
  rw [if_neg (by simp [h1]), if_neg (by simp [h2]), if_neg (by simp [h3]),
      if_neg (by simp [h4]), if_neg (by simp [h5])]
  by_cases hC : ((pathPatternTest (jsTrim s) || containsSub (jsTrim s) backslashStr ||
      containsSub (jsTrim s) slashStr) &&
      (decide (2 < (jsTrim s).length) &&
        (containsSub (jsTrim s) backslashStr || containsSub (jsTrim s) slashStr))) = true
  · rw [if_pos hC]
    rw [Bool.and_eq_true, Bool.and_eq_true] at hC
    obtain ⟨hA, hlen, hsep⟩ := hC
    exact ⟨⟨fun _ => ⟨of_decide_eq_true hlen, hsep⟩, fun _ => rfl⟩, fun _ => rfl⟩
  · rw [if_neg hC]
    constructor
    · constructor
      · intro hty
        exfalso
        revert hty
        repeat' split
        all_goals simp
      · rintro ⟨hlen, hsep⟩
        exfalso
        apply hC
        rw [Bool.or_eq_true] at hsep
        rcases hsep with h | h <;> simp [h, decide_eq_true hlen]
    · intro hty
      exfalso
      revert hty
      repeat' split
      all_goals simp

/-- C2 witness: "C:\Users\test\file.txt" misses rules 1-5 and classifies
as Path with confidence 0.9 and unchanged value. -/
theorem detectIntent_path_characterization_witness :
    (2 < (jsTrim drivePathInput).length ∧
      (containsSub (jsTrim drivePathInput) backslashStr ||
        containsSub (jsTrim drivePathInput) slashStr) = true) ∧
    (detectIntent drivePathInput).type = IntentType.path ∧
    detectIntent drivePathInput = ⟨IntentType.path, drivePathInput, 9/10⟩ := by
  have h := detectIntent_path_characterization drivePathInput (by decide) (by decide)
    (by decide) (by decide) (by decide)
  have hty : (detectIntent drivePathInput).type = IntentType.path :=
    h.1.mpr ⟨by decide, by decide⟩
  refine ⟨⟨by decide, by decide⟩, hty, ?_⟩
  have hfull := h.2 hty
  rwa [show jsTrim drivePathInput = drivePathInput from by decide] at hfull

/-- C2 counterexample: "a/b" starts with none of the leading prefixes the
claim requires for Path (no drive letter, UNC, relative dot, or leading
separator), yet the code classifies it as Path. -/
theorem detectIntent_path_without_prefix :
    pathPatternTest (jsTrim relPathInput) = false ∧
    (detectIntent relPathInput).type = IntentType.path := by
  exact ⟨by decide, by decide⟩

theorem strStarts_head_ne {a b : Nat} {s' p' : List Nat} (hne : a ≠ b) :
    strStarts (a :: s') (b :: p') = false := by
  unfold strStarts
  rw [beq_eq_false_iff_ne.mpr hne, Bool.false_and]

theorem beq_cons_head_ne {a b : Nat} {s' p' : List Nat} (hne : a ≠ b) :
    ((a :: s') == (b :: p')) = false := by
  by_contra hcontra
  rw [Bool.not_eq_false, beq_iff_eq] at hcontra
  injection hcontra with h1 _
  exact hne h1

theorem toLowerU_eq_slash {c : Nat} (h : toLowerU c = 47) : c = 47 := by
  unfold toLowerU at h
  split at h
  · next hc =>
    simp only [Bool.and_eq_true, decide_eq_true_eq] at hc
    omega
  · exact h

/-- C3 (amended): an input whose trimmed, lowercased form starts with
`/chat` or `/ai` and that does not contain `://` (which would trigger the
earlier Url rule) classifies as Chat with confidence 1.0.  The value has
the `/chat` prefix stripped and trimmed, but for `/ai` inputs the value is
the whole trimmed input: the `replace` call only strips `/chat`. -/
theorem detectIntent_chat_value (s : List Nat)
    (hpre : (strStarts (lowerStr (jsTrim s)) chatKw ||
        strStarts (lowerStr (jsTrim s)) aiKw) = true)
    (hns : containsSub (jsTrim s) schemeSepKw = false) :
    detectIntent s = ⟨IntentType.chat, chatValue (jsTrim s), 1⟩ ∧
    (strStarts (lowerStr (jsTrim s)) chatKw = true →
      chatValue (jsTrim s) = jsTrim (dropWs ((jsTrim s).drop 5))) ∧
    (strStarts (lowerStr (jsTrim s)) chatKw = false →
      chatValue (jsTrim s) = jsTrim s) := by
  have hhead : ∃ r, lowerStr (jsTrim s) = 47 :: r := by
    rw [Bool.or_eq_true] at hpre
    rcases hpre with h | h
    · rw [show chatKw = 47 :: [99, 104, 97, 116] from by decide] at h
      obtain ⟨r, hr, _⟩ := strStarts_cons h
      exact ⟨r, hr⟩
    · rw [show aiKw = 47 :: [97, 105] from by decide] at h
      obtain ⟨r, hr, _⟩ := strStarts_cons h
      exact ⟨r, hr⟩
  obtain ⟨r, hr⟩ := hhead
  have ht : ∃ t', jsTrim s = 47 :: t' := by
    cases hts : jsTrim s with
    | nil => rw [hts] at hr; simp [lowerStr] at hr
    | cons c t' =>
      rw [hts] at hr
      unfold lowerStr at hr
      rw [List.map_cons] at hr
      injection hr with hc _
      exact ⟨t', by rw [toLowerU_eq_slash hc]⟩
  obtain ⟨t', ht'⟩ := ht
  have h1 : (lowerStr (jsTrim s) == quitKw ||
      strStarts (lowerStr (jsTrim s)) quitSpKw) = false := by
    rw [hr, show quitKw = 113 :: [117, 105, 116] from by decide,
        show quitSpKw = 113 :: [117, 105, 116, 32] from by decide,
        beq_cons_head_ne (by omega), strStarts_head_ne (by omega)]
    decide
  have h2 : (lowerStr (jsTrim s) == swKw || strStarts (lowerStr (jsTrim s)) swSpKw ||
      lowerStr (jsTrim s) == switchKw || strStarts (lowerStr (jsTrim s)) switchSpKw ||
      lowerStr (jsTrim s) == focusKw || strStarts (lowerStr (jsTrim s)) focusSpKw) = false := by
    rw [hr, show swKw = 115 :: [119] from by decide,
        show swSpKw = 115 :: [119, 32] from by decide,
        show switchKw = 115 :: [119, 105, 116, 99, 104] from by decide,
        show switchSpKw = 115 :: [119, 105, 116, 99, 104, 32] from by decide,
        show focusKw = 102 :: [111, 99, 117, 115] from by decide,
        show focusSpKw = 102 :: [111, 99, 117, 115, 32] from by decide,
        beq_cons_head_ne (by omega), strStarts_head_ne (by omega),
        beq_cons_head_ne (by omega), strStarts_head_ne (by omega),
        beq_cons_head_ne (by omega), strStarts_head_ne (by omega)]
    decide
  have h3 : (lowerStr (jsTrim s) == recentKw ||
      strStarts (lowerStr (jsTrim s)) recentSpKw ||
      lowerStr (jsTrim s) == recentFilesKw ||
      lowerStr (jsTrim s) == recentFoldersKw) = false := by
    rw [hr, show recentKw = 114 :: [101, 99, 101, 110, 116] from by decide,
        show recentSpKw = 114 :: [101, 99, 101, 110, 116, 32] from by decide,
        show recentFilesKw = 114 :: [101, 99, 101, 110, 116, 32, 102, 105, 108, 101, 115] from by decide,
        show recentFoldersKw = 114 :: [101, 99, 101, 110, 116, 32, 102, 111, 108, 100, 101, 114, 115] from by decide,
        beq_cons_head_ne (by omega), strStarts_head_ne (by omega),
        beq_cons_head_ne (by omega), beq_cons_head_ne (by omega)]
    decide
  have h4 : (urlPatternTest (jsTrim s) || containsSub (jsTrim s) schemeSepKw ||
      strStarts (jsTrim s) localhostKw) = false := by
    unfold urlPatternTest bareDomainTest
    rw [hns, hr, ht',
        show httpKw = 104 :: [116, 116, 112, 58, 47, 47] from by decide,
        show httpsKw = 104 :: [116, 116, 112, 115, 58, 47, 47] from by decide,
        show localhostKw = 108 :: [111, 99, 97, 108, 104, 111, 115, 116] from by decide,
        show wwwKw = 119 :: [119, 119, 46] from by decide,
        strStarts_head_ne (by omega), strStarts_head_ne (by omega),
        strStarts_head_ne (by omega), strStarts_head_ne (by omega),
        strStarts_head_ne (by omega)]
    simp [List.takeWhile_cons, isAlphaNumDash, isAsciiAlpha, isDigit]
  have hfull : detectIntent s = ⟨IntentType.chat, chatValue (jsTrim s), 1⟩ := by
    unfold detectIntent detectIntentOfTrimmed
    rw [if_neg (by simp [h1]), if_neg (by simp [h2]), if_neg (by simp [h3]),
        if_neg (by simp [h4]), if_pos hpre]
  refine ⟨hfull, ?_, ?_⟩
  · intro hcs
    unfold chatValue
    rw [if_pos hcs]
  · intro hcs
    unfold chatValue
    rw [if_neg (by simp [hcs]), jsTrim_idem]

/-- C3 witness: "/chat open my project" classifies as Chat with value
"open my project". -/
theorem detectIntent_chat_value_witness :
    (strStarts (lowerStr (jsTrim chatInput)) chatKw ||
      strStarts (lowerStr (jsTrim chatInput)) aiKw) = true ∧
    detectIntent chatInput = ⟨IntentType.chat, chatInputValue, 1⟩ := by
  refine ⟨by decide, ?_⟩
  have h := (detectIntent_chat_value chatInput (by decide) (by decide)).1
  rw [h, show chatValue (jsTrim chatInput) = chatInputValue from by decide]

/-- C3 counterexample: "/ai hi" classifies as Chat but its value is the
whole trimmed input "/ai hi", not the remainder "hi": the `replace` call
only strips the `/chat` prefix, never `/ai`. -/
theorem detectIntent_ai_prefix_not_stripped :
    (detectIntent aiInput).type = IntentType.chat ∧
    (detectIntent aiInput).value = aiInput ∧
    (detectIntent aiInput).value ≠ strToUnits (r"hi") := by
  exact ⟨by decide, by decide, by decide⟩

/-- C4 (amended): the code's Quit trigger requires the keyword to be
followed by a literal space (or to be the whole trimmed input), not an
arbitrary `\s` character.  For every such input, `classify` returns Quit
with confidence 1.0 and value equal to the trimmed remainder after the
keyword — regardless of whether the remainder matches the URL pattern,
since the Quit rule is evaluated first. -/
theorem detectIntent_quit_space (s : List Nat)
    (h : (lowerStr (jsTrim s) == quitKw ||
        strStarts (lowerStr (jsTrim s)) quitSpKw) = true) :
    detectIntent s = ⟨IntentType.quit, jsTrim (dropWs ((jsTrim s).drop 4)), 1⟩ := by
  have hq : strStarts (lowerStr (jsTrim s)) quitKw = true := by
    rw [Bool.or_eq_true] at h
    rcases h with h | h
    · rw [beq_iff_eq.mp h]; decide
    · exact strStarts_append_left
        (by rw [show quitKw ++ [32] = quitSpKw from by decide]; exact h)
  unfold detectIntent detectIntentOfTrimmed
  rw [if_pos h]
  unfold quitValue
  rw [if_pos hq]

/-- C4 witness: "quit https://x.com" satisfies the Quit trigger and
classifies as Quit (not Url) with value "https://x.com". -/
theorem detectIntent_quit_space_witness :
    (lowerStr (jsTrim quitUrlInput) == quitKw ||
      strStarts (lowerStr (jsTrim quitUrlInput)) quitSpKw) = true ∧
    detectIntent quitUrlInput = ⟨IntentType.quit, quitUrlValue, 1⟩ ∧
    (detectIntent quitUrlInput).type ≠ IntentType.url := by
  refine ⟨by decide, ?_, ?_⟩
  · rw [detectIntent_quit_space quitUrlInput (by decide)]
    rw [show jsTrim (dropWs ((jsTrim quitUrlInput).drop 4)) = quitUrlValue from by decide]
  · rw [detectIntent_quit_space quitUrlInput (by decide)]
    simp

/-- C4 counterexample: the trimmed input "quit&lt;TAB&gt;x" matches the claimed
trigger `^quit(\s.*)?$` case-insensitively (TAB is `\s`), yet the code
classifies it as App, because `startsWith("quit ")` requires a literal
space. -/
theorem detectIntent_quit_tab_counterexample :
    specQuitRegexMatch (jsTrim quitTabInput) = true ∧
    (detectIntent quitTabInput).type = IntentType.app ∧
    (detectIntent quitTabInput).type ≠ IntentType.quit := by
  exact ⟨by decide, by decide, by decide⟩

/-- C7: declining a pending confirmation performs no side-effecting
operation (the effect list is empty), returns the cancelled response,
removes the pending id from the map, and replaying the same id afterwards
(with either answer) fails with the 404 "not found" error, again with no
state change and no effects. -/
theorem confirm_decline_spec (st : ServerState) (cid : List Nat) (c : Confirmation)
    (hfound : pendingLookup st.pendingConfirmations cid = some c)
    (hcid : cid.isEmpty = false) :
    confirmHandler st (some cid) (some false) none =
      (⟨pendingDelete st.pendingConfirmations cid⟩, ⟨200, false, true, none⟩, []) ∧
    pendingLookup (pendingDelete st.pendingConfirmations cid) cid = none ∧
    (∀ b path,
      confirmHandler ⟨pendingDelete st.pendingConfirmations cid⟩ (some cid) (some b) path =
        (⟨pendingDelete st.pendingConfirmations cid⟩,
          ⟨404, false, false, some errNotFound⟩, [])) := by
  have hdel : pendingLookup (pendingDelete st.pendingConfirmations cid) cid = none := by
    unfold pendingLookup pendingDelete
    have hfind : List.find? (fun p => p.1 == cid)
        (List.filter (fun p => !(p.1 == cid)) st.pendingConfirmations) = none := by
      rw [List.find?_eq_none]
      intro x hx
      have hx2 := (List.mem_filter.mp hx).2
      simp only [Bool.not_eq_true'] at hx2
      simp [hx2]
    rw [hfind]
    rfl
  refine ⟨?_, hdel, ?_⟩
  · simp [confirmHandler, hcid, hfound]
  · intro b path
    simp [confirmHandler, hcid, hdel]

/-- C7 witness: a server holding one pending confirmation; declining it
yields the cancelled response with no effects, and the replay 404s. -/
theorem confirm_decline_spec_witness :
    pendingLookup demoServer.pendingConfirmations demoCid = some demoConfirmation ∧
    demoCid.isEmpty = false ∧
    confirmHandler demoServer (some demoCid) (some false) none =
      (⟨pendingDelete demoServer.pendingConfirmations demoCid⟩, ⟨200, false, true, none⟩, []) ∧
    confirmHandler ⟨pendingDelete demoServer.pendingConfirmations demoCid⟩
        (some demoCid) (some true) none =
      (⟨pendingDelete demoServer.pendingConfirmations demoCid⟩,
        ⟨404, false, false, some errNotFound⟩, []) := by
  refine ⟨by decide, by decide, ?_, ?_⟩
  · exact (confirm_decline_spec demoServer demoCid demoConfirmation (by decide) (by decide)).1
  · exact (confirm_decline_spec demoServer demoCid demoConfirmation
      (by decide) (by decide)).2.2 true none

/-- C8: while the suggestion list is shown and non-empty, the selection
cursor stays within bounds: ArrowUp at index 0 stays at 0, ArrowDown at
the last index stays at the last index (no wraparound), the arrow keys
never change the list itself, and replacing the list with a non-empty
result resets the cursor to 0 (within bounds). -/
theorem selection_cursor_spec (st : PresenterState) (l : List Suggestion)
    (hinv : st.selectedSuggestionIndex < st.suggestions.length) :
    (arrowUp st).suggestions = st.suggestions ∧
    (arrowDown st).suggestions = st.suggestions ∧
    (arrowUp st).selectedSuggestionIndex < st.suggestions.length ∧
    (arrowDown st).selectedSuggestionIndex < st.suggestions.length ∧
    (st.selectedSuggestionIndex = 0 → (arrowUp st).selectedSuggestionIndex = 0) ∧
    (st.selectedSuggestionIndex = st.suggestions.length - 1 →
      (arrowDown st).selectedSuggestionIndex = st.suggestions.length - 1) ∧
    (0 < l.length →
      (setSuggestionList st l).selectedSuggestionIndex = 0 ∧
      (setSuggestionList st l).suggestions = l ∧
      (setSuggestionList st l).selectedSuggestionIndex <
        (setSuggestionList st l).suggestions.length) := by
  unfold arrowUp arrowDown setSuggestionList
  refine ⟨?_, ?_, ?_, ?_, ?_, ?_, ?_⟩ <;> split_ifs <;> simp_all <;> omega

/-- C8 witness: a two-entry visible list with the cursor on the last
entry: ArrowDown stays at the last index, replacing the list with a
non-empty one resets the cursor to 0. -/
theorem selection_cursor_spec_witness :
    demoPresenter.selectedSuggestionIndex < demoPresenter.suggestions.length ∧
    (arrowDown demoPresenter).selectedSuggestionIndex =
      demoPresenter.suggestions.length - 1 ∧
    (setSuggestionList demoPresenter [demoSuggestionA]).selectedSuggestionIndex = 0 := by
  have h := selection_cursor_spec demoPresenter [demoSuggestionA] (by decide)
  exact ⟨by decide, h.2.2.2.2.2.1 (by decide), (h.2.2.2.2.2.2 (by decide)).1⟩

theorem lexLe_total : ∀ a b : List Nat, lexLe a b = true ∨ lexLe b a = true := by
  intro a
  induction a with
  | nil => intro b; left; rfl
  | cons x xs ih =>
    intro b
    cases b with
    | nil => right; rfl
    | cons y ys =>
      unfold lexLe
      rcases Nat.lt_trichotomy x y with h | h | h
      · left; rw [if_pos h]
      · subst h
        rcases ih ys with h2 | h2
        · left; rw [if_neg (by omega), if_neg (by omega)]; exact h2
        · right; rw [if_neg (by omega), if_neg (by omega)]; exact h2
      · right; rw [if_pos h]

theorem lexLe_trans : ∀ a b c : List Nat, lexLe a b = true → lexLe b c = true →
    lexLe a c = true := by
  intro a
  induction a with
  | nil => intro b c _ _; rfl
  | cons x xs ih =>
    intro b c hab hbc
    cases b with
    | nil => simp [lexLe] at hab
    | cons y ys =>
      cases c with
      | nil => simp [lexLe] at hbc
      | cons z zs =>
        unfold lexLe at hab hbc ⊢
        by_cases hxy : x < y
        · by_cases hyz : y < z
          · rw [if_pos (by omega)]
          · rw [if_neg hyz] at hbc
            by_cases hzy : z < y
            · rw [if_pos hzy] at hbc; cases hbc
            · rw [if_pos (by omega)]
        · rw [if_neg hxy] at hab
          by_cases hyx : y < x
          · rw [if_pos hyx] at hab; cases hab
          · rw [if_neg hyx] at hab
            have hxy' : x = y := by omega
            subst hxy'
            by_cases hxz : x < z
            · rw [if_pos hxz]
            · rw [if_neg hxz] at hbc ⊢
              by_cases hzx : z < x
              · rw [if_pos hzx] at hbc; cases hbc
              · rw [if_neg hzx] at hbc ⊢
                exact ih ys zs hab hbc

theorem nameRank_le_two (term n : List Nat) : nameRank term n ≤ 2 := by
  unfold nameRank
  split_ifs <;> omega

theorem runningAppCmpLe_iff (term a b : List Nat) :
    runningAppCmpLe term a b = true ↔
      (nameRank term a < nameRank term b ∨
        (nameRank term a = nameRank term b ∧
          (nameRank term a ≤ 1 ∨ lexLe (lowerStr a) (lowerStr b) = true))) := by
  unfold runningAppCmpLe nameRank
  by_cases h1 : (lowerStr a == term) = true <;>
    by_cases h2 : (lowerStr b == term) = true <;>
    by_cases h3 : strStarts (lowerStr a) term = true <;>
    by_cases h4 : strStarts (lowerStr b) term = true <;>
    simp [h1, h2, h3, h4]

theorem runningAppRel_total (term : List Nat) : ∀ a b : List Nat,
    runningAppRel term a b ∨ runningAppRel term b a := by
  intro a b
  unfold runningAppRel
  rw [runningAppCmpLe_iff, runningAppCmpLe_iff]
  rcases Nat.lt_trichotomy (nameRank term a) (nameRank term b) with h | h | h
  · exact Or.inl (Or.inl h)
  · by_cases hr : nameRank term a ≤ 1
    · exact Or.inl (Or.inr ⟨h, Or.inl hr⟩)
    · rcases lexLe_total (lowerStr a) (lowerStr b) with h2 | h2
      · exact Or.inl (Or.inr ⟨h, Or.inr h2⟩)
      · exact Or.inr (Or.inr ⟨h.symm, Or.inr h2⟩)
  · exact Or.inr (Or.inl h)

theorem runningAppRel_trans (term : List Nat) : ∀ a b c : List Nat,
    runningAppRel term a b → runningAppRel term b c → runningAppRel term a c := by
  intro a b c hab hbc
  unfold runningAppRel at hab hbc ⊢
  rw [runningAppCmpLe_iff] at hab hbc ⊢
  rcases hab with h | ⟨he, hx⟩
  · rcases hbc with h2 | ⟨he2, _⟩
    · exact Or.inl (by omega)
    · exact Or.inl (by omega)
  · rcases hbc with h2 | ⟨he2, hy⟩
    · exact Or.inl (by omega)
    · refine Or.inr ⟨by omega, ?_⟩
      rcases hx with hr | hl
      · exact Or.inl hr
      · rcases hy with hr2 | hl2
        · exact Or.inl (by omega)
        · exact Or.inr (lexLe_trans _ _ _ hl hl2)

theorem alphaRel_total : ∀ a b : List Nat, alphaRel a b ∨ alphaRel b a := by
  intro a b
  unfold alphaRel
  exact lexLe_total _ _

theorem alphaRel_trans : ∀ a b c : List Nat,
    alphaRel a b → alphaRel b c → alphaRel a c := by
  intro a b c hab hbc
  unfold alphaRel at hab hbc ⊢
  exact lexLe_trans _ _ _ hab hbc

/-- C6: with a non-empty search term, the Switch/Quit suggestion list is a
permutation of exactly the running processes whose lowercased names
contain the term, ordered by match tier (exact first, then starts-with,
then the rest), with the tier-2 tail in case-insensitive alphabetical
order; with no search term, it is a permutation of all processes in
case-insensitive alphabetical order. -/
theorem filterAndDisplayApps_spec (apps : List (List Nat)) (searchTerm : List Nat) :
    (searchTerm.isEmpty = false →
      (filterAndDisplayApps apps searchTerm).Perm
        (apps.filter (fun a => containsSub (lowerStr a) searchTerm)) ∧
      (∀ i j (hi : i < (filterAndDisplayApps apps searchTerm).length)
          (hj : j < (filterAndDisplayApps apps searchTerm).length), i < j →
        nameRank searchTerm ((filterAndDisplayApps apps searchTerm).get ⟨i, hi⟩) ≤
          nameRank searchTerm ((filterAndDisplayApps apps searchTerm).get ⟨j, hj⟩) ∧
        (nameRank searchTerm ((filterAndDisplayApps apps searchTerm).get ⟨i, hi⟩) = 2 →
          lexLe (lowerStr ((filterAndDisplayApps apps searchTerm).get ⟨i, hi⟩))
            (lowerStr ((filterAndDisplayApps apps searchTerm).get ⟨j, hj⟩)) = true))) ∧
    (searchTerm.isEmpty = true →
      (filterAndDisplayApps apps searchTerm).Perm apps ∧
      (∀ i j (hi : i < (filterAndDisplayApps apps searchTerm).length)
          (hj : j < (filterAndDisplayApps apps searchTerm).length), i < j →
        lexLe (lowerStr ((filterAndDisplayApps apps searchTerm).get ⟨i, hi⟩))
          (lowerStr ((filterAndDisplayApps apps searchTerm).get ⟨j, hj⟩)) = true)) := by
  have htot : IsTotal (List Nat) (runningAppRel searchTerm) := ⟨runningAppRel_total searchTerm⟩
  have htr : IsTrans (List Nat) (runningAppRel searchTerm) :=
    ⟨runningAppRel_trans searchTerm⟩
  have hatot : IsTotal (List Nat) alphaRel := ⟨alphaRel_total⟩
  have hatr : IsTrans (List Nat) alphaRel := ⟨alphaRel_trans⟩
  constructor
  · intro hne
    have hdef : filterAndDisplayApps apps searchTerm =
        List.insertionSort (runningAppRel searchTerm)
          (apps.filter (fun a => containsSub (lowerStr a) searchTerm)) := by
      unfold filterAndDisplayApps
      rw [if_neg (by simp [hne])]
    constructor
    · rw [hdef]; exact List.perm_insertionSort _ _
    · intro i j hi hj hij
      have hpw : (filterAndDisplayApps apps searchTerm).Pairwise (runningAppRel searchTerm) := by
        rw [hdef]
        exact List.sorted_insertionSort _ _
      have hrel := List.pairwise_iff_getElem.mp hpw i j hi hj hij
      unfold runningAppRel at hrel
      rw [runningAppCmpLe_iff] at hrel
      simp only [List.get_eq_getElem]
      have h2a := nameRank_le_two searchTerm
        ((filterAndDisplayApps apps searchTerm).get ⟨j, hj⟩)
      simp only [List.get_eq_getElem] at h2a
      constructor
      · rcases hrel with h | ⟨he, _⟩
        · omega
        · omega
      · intro h2i
        rcases hrel with h | ⟨he, hx⟩
        · omega
        · rcases hx with hr | hl
          · omega
          · exact hl
  · intro hemp
    have hdef : filterAndDisplayApps apps searchTerm =
        List.insertionSort alphaRel apps := by
      unfold filterAndDisplayApps
      rw [if_pos hemp]
    constructor
    · rw [hdef]; exact List.perm_insertionSort _ _
    · intro i j hi hj hij
      have hpw : (filterAndDisplayApps apps searchTerm).Pairwise alphaRel := by
        rw [hdef]
        exact List.sorted_insertionSort _ _
      have hrel := List.pairwise_iff_getElem.mp hpw i j hi hj hij
      unfold alphaRel at hrel
      simp only [List.get_eq_getElem]
      exact hrel

/-- C6 witness: processes ["Beta", "alpha", "AL", "xal"] with search term
"al": the list keeps exactly the three matches and the exact match sorts
no later than the starts-with match. -/
theorem filterAndDisplayApps_spec_witness :
    demoTerm.isEmpty = false ∧
    (filterAndDisplayApps demoProcs demoTerm).Perm
      (demoProcs.filter (fun a => containsSub (lowerStr a) demoTerm)) ∧
    nameRank demoTerm ((filterAndDisplayApps demoProcs demoTerm).get ⟨0, by decide⟩) ≤
      nameRank demoTerm ((filterAndDisplayApps demoProcs demoTerm).get ⟨1, by decide⟩) := by
  have h := (filterAndDisplayApps_spec demoProcs demoTerm).1 (by decide)
  exact ⟨by decide, h.1, (h.2 0 1 (by decide) (by decide) (by decide)).1⟩

theorem PosFrac.le_total' (a b : PosFrac) : PosFrac.le a b ∨ PosFrac.le b a := by
  unfold PosFrac.le
  exact Int.le_total _ _

theorem PosFrac.le_trans' (a b c : PosFrac) (hab : PosFrac.le a b) (hbc : PosFrac.le b c) :
    PosFrac.le a c := by
  unfold PosFrac.le at hab hbc ⊢
  have hbpos : (0 : Int) < b.den := Int.natCast_pos.mpr b.den_pos
  have hann : (0 : Int) ≤ a.den := Int.natCast_nonneg a.den
  have hcnn : (0 : Int) ≤ c.den := Int.natCast_nonneg c.den
  have h1 := mul_le_mul_of_nonneg_right hab hcnn
  have h2 := mul_le_mul_of_nonneg_right hbc hann
  have h3 : a.num * c.den * b.den ≤ c.num * a.den * b.den := by
    ring_nf at h1 h2 ⊢
    linarith
  exact le_of_mul_le_mul_right h3 hbpos

theorem PosFrac.le_lt_asymm {a b : PosFrac} (h1 : PosFrac.le a b)
    (h2 : PosFrac.lt b a) : False := by
  unfold PosFrac.le at h1
  unfold PosFrac.lt at h2
  omega

theorem scoreGe_total : ∀ p q : List Nat × PosFrac, scoreGe p q ∨ scoreGe q p := by
  intro p q
  unfold scoreGe
  exact PosFrac.le_total' q.2 p.2

theorem scoreGe_trans : ∀ p q r : List Nat × PosFrac,
    scoreGe p q → scoreGe q r → scoreGe p r := by
  intro p q r hpq hqr
  unfold scoreGe at hpq hqr ⊢
  exact PosFrac.le_trans' r.2 q.2 p.2 hqr hpq

/-- In the scored list, a starts-with-only name scores strictly below an
exact-match name (5000 + ratio·2000 &lt; 7000 ≤ 10000). -/
theorem appScore_sw_lt_exact {ql a b : List Nat}
    (ha : (lowerStr a == ql) = true)
    (hb : (lowerStr b == ql) = false) (hbs : strStarts (lowerStr b) ql = true) :
    PosFrac.lt (appScore ql b) (appScore ql a) := by
  have hq : ql.length < (lowerStr b).length := by
    have hle := strStarts_length hbs
    rcases Nat.lt_or_ge ql.length (lowerStr b).length with h | h
    · exact h
    · exfalso
      have heq : lowerStr b = ql := strStarts_eq_of_length hbs (by omega)
      rw [heq] at hb
      simp at hb
  unfold appScore
  rw [if_pos ha, if_neg (by simp [hb]), if_pos hbs]
  unfold PosFrac.lt PosFrac.add PosFrac.mul PosFrac.ratio PosFrac.nat
  dsimp only
  rw [max_eq_left (show 1 ≤ (lowerStr b).length by omega)]
  push_cast
  omega

/-- In the scored list, a contains-only name scores strictly below any
name that starts with the query (3000 + ratio·1000 &lt; 4000 ≤ 5000). -/
theorem appScore_contains_lt_sw {ql a b : List Nat}
    (hasw : strStarts (lowerStr a) ql = true)
    (hbb : (lowerStr b == ql) = false) (hbns : strStarts (lowerStr b) ql = false)
    (hbc : containsSub (lowerStr b) ql = true) :
    PosFrac.lt (appScore ql b) (appScore ql a) := by
  have hqb : ql.length < (lowerStr b).length := containsSub_lt_of_not_starts hbc hbns
  have hqa : ql.length ≤ (lowerStr a).length := strStarts_length hasw
  unfold appScore
  rw [if_neg (by simp [hbb]), if_neg (by simp [hbns]), if_pos hbc]
  by_cases haq : (lowerStr a == ql) = true
  · rw [if_pos haq]
    unfold PosFrac.lt PosFrac.add PosFrac.mul PosFrac.ratio PosFrac.nat
    dsimp only
    rw [max_eq_left (show 1 ≤ (lowerStr b).length by omega)]
    push_cast
    omega
  · rw [if_neg haq, if_pos hasw]
    unfold PosFrac.lt PosFrac.add PosFrac.mul PosFrac.ratio PosFrac.nat
    dsimp only
    rcases Nat.eq_zero_or_pos (lowerStr a).length with h0 | h0
    · have hq0 : ql.length = 0 := by omega
      rw [h0, hq0, max_eq_left (show 1 ≤ (lowerStr b).length by omega),
          max_eq_right (show (0 : Nat) ≤ 1 by omega)]
      push_cast
      omega
    · rw [max_eq_left (show 1 ≤ (lowerStr b).length by omega),
          max_eq_left (show 1 ≤ (lowerStr a).length by omega)]
      push_cast
      have h1 : (ql.length : Int) ≤ (lowerStr a).length := by exact_mod_cast hqa
      have h2 : (ql.length : Int) < (lowerStr b).length := by exact_mod_cast hqb
      have h3 : (0 : Int) < (lowerStr a).length := by exact_mod_cast h0
      have h4 : (0 : Int) < (lowerStr b).length := by omega
      have h5 : (0 : Int) ≤ ql.length := by positivity
      nlinarith [mul_lt_mul_of_pos_right h2 h3, mul_pos h3 h4,
        mul_nonneg h5 (le_of_lt h4)]

theorem searchApps_score_eq {apps : List (List Nat)} {query : List Nat} {limit : Nat}
    {p : List Nat × PosFrac} (hp : p ∈ searchApps apps query limit) :
    p.2 = appScore (jsTrim (lowerStr query)) p.1 := by
  unfold searchApps at hp
  by_cases hq : (jsTrim query).isEmpty = true
  · rw [if_pos hq] at hp
    simp at hp
  · rw [if_neg hq] at hp
    have hp1 := List.mem_of_mem_take hp
    have hp2 := (List.Perm.mem_iff (List.perm_insertionSort _ _)).mp hp1
    have hp3 := (List.mem_filter.mp hp2).1
    obtain ⟨a, _, rfl⟩ := List.mem_map.mp hp3
    rfl

theorem searchApps_pairwise (apps : List (List Nat)) (query : List Nat) (limit : Nat) :
    (searchApps apps query limit).Pairwise scoreGe := by
  have htot : IsTotal (List Nat × PosFrac) scoreGe := ⟨scoreGe_total⟩
  have htr : IsTrans (List Nat × PosFrac) scoreGe := ⟨scoreGe_trans⟩
  unfold searchApps
  by_cases hq : (jsTrim query).isEmpty = true
  · rw [if_pos hq]
    exact List.Pairwise.nil
  · rw [if_neg hq]
    exact List.Pairwise.sublist (List.take_sublist _ _)
      (List.sorted_insertionSort scoreGe _)

/-- C5: in the ranked output of `searchApps`, every candidate whose
lowercased name equals the (lowercased, trimmed) query precedes every
candidate whose name merely starts with the query, and every candidate
whose name starts with the query precedes every candidate whose name
merely contains it as an inner substring. -/
theorem searchApps_tier_order (apps : List (List Nat)) (query : List Nat) (limit : Nat)
    (i j : Nat) (hi : i < (searchApps apps query limit).length)
    (hj : j < (searchApps apps query limit).length) :
    ((lowerStr ((searchApps apps query limit).get ⟨i, hi⟩).1 ==
        jsTrim (lowerStr query)) = true →
      (lowerStr ((searchApps apps query limit).get ⟨j, hj⟩).1 ==
        jsTrim (lowerStr query)) = false →
      strStarts (lowerStr ((searchApps apps query limit).get ⟨j, hj⟩).1)
        (jsTrim (lowerStr query)) = true →
      i < j) ∧
    (strStarts (lowerStr ((searchApps apps query limit).get ⟨i, hi⟩).1)
        (jsTrim (lowerStr query)) = true →
      strStarts (lowerStr ((searchApps apps query limit).get ⟨j, hj⟩).1)
        (jsTrim (lowerStr query)) = false →
      containsSub (lowerStr ((searchApps apps query limit).get ⟨j, hj⟩).1)
        (jsTrim (lowerStr query)) = true →
      i < j) := by
  simp only [List.get_eq_getElem]
  have hpw := searchApps_pairwise apps query limit
  constructor
  · intro ha hbne hbs
    by_contra hij
    push_neg at hij
    have hne : i ≠ j := by
      intro he
      subst he
      rw [ha] at hbne
      cases hbne
    have hji : j < i := by omega
    have hrel := List.pairwise_iff_getElem.mp hpw j i hj hi hji
    unfold scoreGe at hrel
    rw [searchApps_score_eq (List.getElem_mem hi),
        searchApps_score_eq (List.getElem_mem hj)] at hrel
    exact PosFrac.le_lt_asymm hrel (appScore_sw_lt_exact ha hbne hbs)
  · intro hasw hbns hbc
    by_contra hij
    push_neg at hij
    have hne : i ≠ j := by
      intro he
      subst he
      rw [hasw] at hbns
      cases hbns
    have hji : j < i := by omega
    have hrel := List.pairwise_iff_getElem.mp hpw j i hj hi hji
    unfold scoreGe at hrel
    rw [searchApps_score_eq (List.getElem_mem hi),
        searchApps_score_eq (List.getElem_mem hj)] at hrel
    have hbb : (lowerStr ((searchApps apps query limit)[j]).1 ==
        jsTrim (lowerStr query)) = false := by
      by_contra hcontra
      rw [Bool.not_eq_false, beq_iff_eq] at hcontra
      rw [hcontra] at hbns
      have : strStarts (jsTrim (lowerStr query)) (jsTrim (lowerStr query)) = true := by
        clear hbns
        induction (jsTrim (lowerStr query)) with
        | nil => rfl
        | cons c t ih =>
          unfold strStarts
          rw [Bool.and_eq_true]
          exact ⟨beq_iff_eq.mpr rfl, ih⟩
      rw [this] at hbns
      cases hbns
    exact PosFrac.le_lt_asymm hrel (appScore_contains_lt_sw hasw hbb hbns hbc)

/-- C5 witness: apps ["xab", "abc", "ab"] with query "ab": the exact match
(index 0) precedes the starts-with match (index 1), which precedes the
contains match (index 2). -/
theorem searchApps_tier_order_witness :
    (lowerStr ((searchApps demoApps demoQuery 10).get ⟨0, by decide⟩).1 ==
      jsTrim (lowerStr demoQuery)) = true ∧
    strStarts (lowerStr ((searchApps demoApps demoQuery 10).get ⟨1, by decide⟩).1)
      (jsTrim (lowerStr demoQuery)) = true ∧
    containsSub (lowerStr ((searchApps demoApps demoQuery 10).get ⟨2, by decide⟩).1)
      (jsTrim (lowerStr demoQuery)) = true ∧
    (0 : Nat) < 1 ∧ (1 : Nat) < 2 := by
  refine ⟨by decide, by decide, by decide, ?_, ?_⟩
  · exact (searchApps_tier_order demoApps demoQuery 10 0 1 (by decide) (by decide)).1
      (by decide) (by decide) (by decide)
  · exact (searchApps_tier_order demoApps demoQuery 10 1 2 (by decide) (by decide)).2
      (by decide) (by decide) (by decide)

end Navi
